import Mathlib

/-!
Verification development for a Spine-to-3ds-Max importer (files
spine_importer.py and spine_importer_improved.py).

The two Python modules implement the same pipeline: parse a texture atlas
(load_textures), build a bone hierarchy in two passes (create_bones), bake
keyframe animation onto a fixed 30 fps timeline (import_animation) and
orchestrate the whole import (import_spine).  The original module and the
improved module differ in a few policies (duplicate atlas regions, empty
bone names, warnings), so both variants are embedded and named Orig / Impr.

Modelling conventions:
* Python strings are embedded as List Char (StrL below) with structural
  re-implementations of strip / startswith / endswith / split, so that all
  string computation reduces inside the kernel.
* Python floats are embedded as rationals; the spec describes the
  arithmetic in exact real terms, so the rational semantics matches the
  spec reading of float(...), x * 0.01 and int(x).  int(x) is truncation
  towards zero, embedded as pyInt via Int.tdiv.
* Host-application calls (pymxs) are kept abstract: rt.radToDeg is an
  arbitrary function parameter r2d, created scene nodes are records of the
  values the Python code computes for them, and the debug_print log is
  modelled at event granularity by the inductive Msg (banner and summary
  prints carry no decision content and are not modelled).
* The filesystem collaborator (os.path.exists, open().readlines, json.load)
  is a record of functions FS.
-/

/-- Python strings are modelled as lists of characters. -/
abbrev StrL := List Char

/-- Shorthand turning a Lean string literal into the StrL model. -/
def strL (s : String) : StrL := s.toList

/-- Whitespace test used by the model of str.strip(). -/
def isWSc (c : Char) : Bool := c.isWhitespace

/-- Model of Python str.strip(): drop whitespace from both ends. -/
def trimL (l : StrL) : StrL := ((l.dropWhile isWSc).reverse.dropWhile isWSc).reverse

/-- Model of Python str.endswith(suf). -/
def endsWithL (l suf : StrL) : Bool := suf.reverse.isPrefixOf l.reverse

/-- Model of Python str.startswith(pat). -/
def startsWithL (l pat : StrL) : Bool := pat.isPrefixOf l

/-- Containment of pat as a contiguous substring, the model of the
Python expression pat in s. -/
def containsSub (pat : StrL) : StrL → Bool
  | [] => pat.isEmpty
  | c :: rest => pat.isPrefixOf (c :: rest) || containsSub pat rest

/-- Model of Python str.lower() (sufficient for ASCII key names). -/
def toLowerL (l : StrL) : StrL := l.map Char.toLower

/-- Model of Python line.split(chr)[0]: the text before the first
occurrence of chr (the whole line if chr is absent). -/
def splitHead (c : Char) (l : StrL) : StrL := l.takeWhile (fun x => !(x == c))

/-- Model of Python line.split(chr)[1]: the text strictly between the
first and the second occurrence of chr (valid whenever the line contains
chr at least once, which every call site guarantees). -/
def splitSecond (c : Char) (l : StrL) : StrL :=
  ((l.dropWhile (fun x => !(x == c))).drop 1).takeWhile (fun x => !(x == c))

/-- Model of os.path.join(dir, name) for the paths this importer builds. -/
def joinPath (dir name : StrL) : StrL := dir ++ ('/' :: name)

/-- safe_str of spine_importer.py: replace backslash by slash, double
quote by single quote, newline by space, then strip. -/
def safeStrOrig (l : StrL) : StrL :=
  trimL (l.map (fun c =>
    if c == '\\' then '/'
    else if c == '"' then Char.ofNat 39
    else if c == '\n' then ' '
    else c))

/-- safe_str of spine_importer_improved.py: replace backslash by slash and
double quote by single quote; no newline handling, no strip. -/
def safeStrImpr (l : StrL) : StrL :=
  l.map (fun c =>
    if c == '\\' then '/'
    else if c == '"' then Char.ofNat 39
    else c)

/-- Truthiness of the Python variables that hold either None or a string
(current_texture, parent_name handling): None and the empty string are
falsy. -/
def strTruthy : Option StrL → Bool
  | none => false
  | some s => !s.isEmpty

/-- Python dict lookup d.get(k) on an association list with unique keys
(Python dicts preserve insertion order; overwriting keeps the position). -/
def dictGet {α : Type} : List (StrL × α) → StrL → Option α
  | [], _ => none
  | p :: rest, k => if p.1 == k then some p.2 else dictGet rest k

/-- Python membership test k in d. -/
def dictHas {α : Type} (m : List (StrL × α)) (k : StrL) : Bool :=
  (dictGet m k).isSome

/-- Python dict assignment d[k] = v: replace in place if the key exists,
append otherwise. -/
def dictInsert {α : Type} : List (StrL × α) → StrL → α → List (StrL × α)
  | [], k, v => [(k, v)]
  | p :: rest, k, v => if p.1 == k then (k, v) :: rest else p :: dictInsert rest k v

/-- Python in-place mutation of one field of d[k] (a no-op when the key is
absent; every call site guards on membership). -/
def dictModify {α : Type} : List (StrL × α) → StrL → (α → α) → List (StrL × α)
  | [], _, _ => []
  | p :: rest, k, f => if p.1 == k then (p.1, f p.2) :: rest else p :: dictModify rest k f

/-- Numeric value of a digit string (the usual base-10 accumulator). -/
def digitsVal (l : StrL) : ℕ := l.foldl (fun a c => 10 * a + (c.toNat - '0'.toNat)) 0

/-- Unsigned part of the model of Python float(s): digits with an optional
single decimal point.  (float() also accepts exponents and inf/nan; the
atlas rotate lines only carry plain decimal literals, which this covers.) -/
def parseUnsigned (l : StrL) : Option ℚ :=
  let intPart := l.takeWhile Char.isDigit
  let rest := l.dropWhile Char.isDigit
  match rest with
  | [] => if intPart.isEmpty then none else some ((digitsVal intPart : ℚ))
  | c :: fracs =>
    if c == '.' then
      if fracs.all Char.isDigit && (!intPart.isEmpty || !fracs.isEmpty) then
        some ((digitsVal intPart : ℚ) + (digitsVal fracs : ℚ) / (10 : ℚ) ^ fracs.length)
      else none
    else none

/-- Model of Python float(s): strip, optional sign, decimal literal.
Returns none where float() raises ValueError. -/
def parseFloat (l : StrL) : Option ℚ :=
  match trimL l with
  | [] => none
  | c :: rest =>
    if c == '-' then (parseUnsigned rest).map Neg.neg
    else if c == '+' then parseUnsigned rest
    else parseUnsigned (c :: rest)

/-- The debug_print log, modelled at event granularity. -/
inductive Msg where
  | atlasMissing
  | texDirMissing
  | texLoaded (name : StrL)
  | texExists (name : StrL)
  | texFileMissing (path : StrL)
  | rotSet (name : StrL)
  | rotParseErr (line : StrL)
  | noBones
  | unnamedBone
  | boneCreated (name : StrL)
  | boneFailed
  | parentLinked (child par : StrL)
  | parentMissing (par : StrL)
  | animMissing
  deriving DecidableEq

/-- A texture region: rt.BitmapTexture(filename=path) keeps the resolved
path and a rotation attribute that defaults to 0 until a rotate line sets
it. -/
structure Region where
  sourcePath : StrL
  rotation : ℚ
  deriving DecidableEq

/-- State threaded through the atlas line scan of load_textures: the
textures dict, the current_texture marker and the emitted log. -/
structure AtlasState where
  textures : List (StrL × Region)
  current : Option StrL
  msgs : List Msg
  deriving DecidableEq

/-- Keyframe animation documents (defined before FS so the filesystem can
return parsed JSON).  A keyframe dict: every field is read with
frame.get(field, 0), so absent fields are the 0 default. -/
structure Keyframe where
  time : ℚ := 0
  x : ℚ := 0
  y : ℚ := 0
  angle : ℚ := 0
  deriving DecidableEq

/-- Per-bone channel data of one clip; a channel key may be absent. -/
structure BoneAnim where
  translate : Option (List Keyframe) := none
  rotate : Option (List Keyframe) := none
  scale : Option (List Keyframe) := none
  deriving DecidableEq

/-- One named animation clip: anim_data.get("bones", {}). -/
structure AnimClip where
  bones : List (StrL × BoneAnim) := []
  deriving DecidableEq

/-- The animations mapping: clip name to clip. -/
abbrev ClipMap := List (StrL × AnimClip)

/-- One bone record of the skeleton document.  name None models a missing
name key (bone["name"] raises KeyError); numeric fields carry the
bone.get defaults x=0, y=0, length=1.0. -/
structure BoneRec where
  name : Option StrL := none
  x : ℚ := 0
  y : ℚ := 0
  length : ℚ := 1
  rotation : Option ℚ := none
  parent : Option StrL := none
  deriving DecidableEq

/-- The parsed skeleton document.  entries models the top-level JSON
mapping restricted to the keys the animation lookup can read as clip
tables (a dict, so keys are unique); bones is data.get("bones", []). -/
structure Doc where
  entries : List (StrL × ClipMap) := []
  bones : List BoneRec := []
  deriving DecidableEq

/-- The filesystem / JSON collaborator. -/
structure FS where
  pathExists : StrL → Bool
  readLines : StrL → List StrL
  readJson : StrL → Option Doc

/-- One line of the load_textures scan of spine_importer.py: lines ending
in .png register (or overwrite) a region when the file exists; rotate:
lines set the rotation of the current region; everything else is ignored. -/
def stepOrig (fs : FS) (texDir : StrL) (st : AtlasState) (raw : StrL) : AtlasState :=
  let line := trimL raw
  if line.isEmpty then st
  else if endsWithL line (strL ".png") then
    let texName := splitHead '.' line
    let texPath := joinPath texDir line
    if fs.pathExists texPath then
      { st with textures := dictInsert st.textures texName ⟨texPath, 0⟩
                current := some texName
                msgs := st.msgs ++ [Msg.texLoaded texName] }
    else
      { st with msgs := st.msgs ++ [Msg.texFileMissing texPath] }
  else if startsWithL line (strL "rotate:") && strTruthy st.current then
    match parseFloat (splitSecond ':' line) with
    | some v =>
      { st with textures := dictModify st.textures (st.current.getD [])
                  (fun r => { r with rotation := v })
                msgs := st.msgs ++ [Msg.rotSet (st.current.getD [])] }
    | none => { st with msgs := st.msgs ++ [Msg.rotParseErr line] }
  else st

/-- One line of the load_textures scan of spine_importer_improved.py: like
the original, except a name already present in the textures dict is
skipped with a message (and current_texture is left unchanged). -/
def stepImpr (fs : FS) (texDir : StrL) (st : AtlasState) (raw : StrL) : AtlasState :=
  let line := trimL raw
  if line.isEmpty then st
  else if endsWithL line (strL ".png") then
    let texName := splitHead '.' line
    let texPath := joinPath texDir line
    if fs.pathExists texPath then
      if dictHas st.textures texName then
        { st with msgs := st.msgs ++ [Msg.texExists texName] }
      else
        { st with textures := dictInsert st.textures texName ⟨texPath, 0⟩
                  current := some texName
                  msgs := st.msgs ++ [Msg.texLoaded texName] }
    else
      { st with msgs := st.msgs ++ [Msg.texFileMissing texPath] }
  else if startsWithL line (strL "rotate:") && strTruthy st.current then
    match parseFloat (splitSecond ':' line) with
    | some v =>
      { st with textures := dictModify st.textures (st.current.getD [])
                  (fun r => { r with rotation := v })
                msgs := st.msgs ++ [Msg.rotSet (st.current.getD [])] }
    | none => { st with msgs := st.msgs ++ [Msg.rotParseErr line] }
  else st

/-- load_textures of spine_importer.py. -/
def loadTexturesOrig (fs : FS) (atlasPath texDir : StrL) : AtlasState :=
  if !(fs.pathExists atlasPath) then ⟨[], none, [Msg.atlasMissing]⟩
  else (fs.readLines atlasPath).foldl (stepOrig fs texDir) ⟨[], none, []⟩

/-- load_textures of spine_importer_improved.py: validate_file_path also
rejects empty paths and checks the texture directory up front. -/
def loadTexturesImpr (fs : FS) (atlasPath texDir : StrL) : AtlasState :=
  if atlasPath.isEmpty || !(fs.pathExists atlasPath) then ⟨[], none, [Msg.atlasMissing]⟩
  else if texDir.isEmpty || !(fs.pathExists texDir) then ⟨[], none, [Msg.texDirMissing]⟩
  else (fs.readLines atlasPath).foldl (stepImpr fs texDir) ⟨[], none, []⟩

/-- The scene bone record: the values create_bones computes and hands to
the host (BoneSys.createBone position, length floored at 0.1 then scaled,
width and height at 0.3 of the length, optional initial rotation converted
by the host radToDeg, and the parent link resolved in pass 2).  posZ is
always 0 and is not repeated here. -/
structure MaxBone where
  posX : ℚ
  posY : ℚ
  boneLength : ℚ
  width : ℚ
  height : ℚ
  rotationDeg : Option ℚ
  parent : Option StrL
  deriving DecidableEq

/-- Pass-1 construction of one scene bone (identical arithmetic in both
modules): sceneX = x * scale, sceneY = -y * scale (Y flip), length floored
at 0.1 before scaling, rotation mapped through the host radToDeg r2d. -/
def mkMaxBone (r2d : ℚ → ℚ) (scale : ℚ) (rec : BoneRec) : MaxBone :=
  let px := rec.x * scale
  let py := -rec.y * scale
  let bl := max (1/10) rec.length * scale
  ⟨px, py, bl, bl * (3/10), bl * (3/10), rec.rotation.map r2d, none⟩

/-- Pass 1 of create_bones in spine_importer_improved.py: a record whose
safe_str name is empty is skipped with a warning, otherwise the bone is
stored under its name (a repeated name overwrites in place). -/
def pass1StepImpr (r2d : ℚ → ℚ) (scale : ℚ)
    (acc : List (StrL × MaxBone) × List Msg) (rec : BoneRec) :
    List (StrL × MaxBone) × List Msg :=
  let nm := safeStrImpr (rec.name.getD [])
  if nm.isEmpty then (acc.1, acc.2 ++ [Msg.unnamedBone])
  else (dictInsert acc.1 nm (mkMaxBone r2d scale rec), acc.2 ++ [Msg.boneCreated nm])

/-- Pass 1 of create_bones in spine_importer.py: bone["name"] raises
KeyError when the key is missing, which the except branch turns into a
skip; an empty name passes through and is registered under the empty
string. -/
def pass1StepOrig (r2d : ℚ → ℚ) (scale : ℚ)
    (acc : List (StrL × MaxBone) × List Msg) (rec : BoneRec) :
    List (StrL × MaxBone) × List Msg :=
  match rec.name with
  | none => (acc.1, acc.2 ++ [Msg.boneFailed])
  | some nm0 =>
    let nm := safeStrOrig nm0
    (dictInsert acc.1 nm (mkMaxBone r2d scale rec), acc.2 ++ [Msg.boneCreated nm])

/-- Pass 2 of create_bones in spine_importer_improved.py: link the parent
when the parent name is truthy and both names are in the map; warn when a
truthy parent name is absent from the map. -/
def pass2StepImpr (acc : List (StrL × MaxBone) × List Msg) (rec : BoneRec) :
    List (StrL × MaxBone) × List Msg :=
  let bn := safeStrImpr (rec.name.getD [])
  let pn := safeStrImpr (rec.parent.getD [])
  if !pn.isEmpty && dictHas acc.1 pn && dictHas acc.1 bn then
    (dictModify acc.1 bn (fun b => { b with parent := some pn }),
     acc.2 ++ [Msg.parentLinked bn pn])
  else if !pn.isEmpty && !dictHas acc.1 pn then
    (acc.1, acc.2 ++ [Msg.parentMissing pn])
  else acc

/-- Pass 2 of create_bones in spine_importer.py: same link condition, but
a missing name key skips the record (KeyError) and an unresolved parent is
passed over silently. -/
def pass2StepOrig (acc : List (StrL × MaxBone) × List Msg) (rec : BoneRec) :
    List (StrL × MaxBone) × List Msg :=
  match rec.name with
  | none => acc
  | some nm0 =>
    let bn := safeStrOrig nm0
    let pn := safeStrOrig (rec.parent.getD [])
    if !pn.isEmpty && dictHas acc.1 pn && dictHas acc.1 bn then
      (dictModify acc.1 bn (fun b => { b with parent := some pn }),
       acc.2 ++ [Msg.parentLinked bn pn])
    else acc

/-- create_bones of spine_importer_improved.py: warn and return an empty
map on an empty bones list, else run the two passes. -/
def createBonesImpr (r2d : ℚ → ℚ) (doc : Doc) (scale : ℚ) :
    List (StrL × MaxBone) × List Msg :=
  if doc.bones.isEmpty then ([], [Msg.noBones])
  else doc.bones.foldl pass2StepImpr (doc.bones.foldl (pass1StepImpr r2d scale) ([], []))

/-- create_bones of spine_importer.py: the two passes with no empty-list
shortcut. -/
def createBonesOrig (r2d : ℚ → ℚ) (doc : Doc) (scale : ℚ) :
    List (StrL × MaxBone) × List Msg :=
  doc.bones.foldl pass2StepOrig (doc.bones.foldl (pass1StepOrig r2d scale) ([], []))

/-- Case-insensitive key heuristic of the animation fallback scan:
"anim" in key.lower() or "motion" in key.lower(). -/
def keyMatches (k : StrL) : Bool :=
  containsSub (strL "anim") (toLowerL k) || containsSub (strL "motion") (toLowerL k)

/-- The fallback loop of import_animation: for key in data.keys(), on a
matching key assign animations = data.get(key, {}) and stop at the first
non-empty value; the last assignment survives when no value is non-empty. -/
def fallbackScan : List (StrL × ClipMap) → ClipMap → ClipMap
  | [], acc => acc
  | (k, v) :: rest, acc =>
    if keyMatches k then (if v.isEmpty then fallbackScan rest v else v)
    else fallbackScan rest acc

/-- Animation source selection of import_animation (identical in both
modules): data.get("animations", {}), falling back to the heuristic key
scan when that is empty. -/
def findAnimations (entries : List (StrL × ClipMap)) : ClipMap :=
  let primary := (dictGet entries (strL "animations")).getD []
  if primary.isEmpty then fallbackScan entries primary else primary

/-- The channels present on one bone of one clip, in the scan order
translate, rotate, scale. -/
def channelsOf (ba : BoneAnim) : List (List Keyframe) :=
  [ba.translate, ba.rotate, ba.scale].reduceOption

/-- Every keyframe time of every present channel of every bone of every
clip, in the scan order of the duration loop of import_animation. -/
def collectTimes (anims : ClipMap) : List ℚ :=
  anims.flatMap (fun c =>
    c.2.bones.flatMap (fun b =>
      (channelsOf b.2).flatMap (fun frames => frames.map Keyframe.time)))

/-- Python int() on a float value: truncation towards zero. -/
def pyInt (q : ℚ) : ℤ := q.num.tdiv q.den

/-- The timeline length computed by import_animation:
anim_length = int(maxTime * 30) + 10, where maxTime folds max over every
keyframe time starting from 0. -/
def animLengthFrames (anims : ClipMap) : ℤ :=
  pyInt ((collectTimes anims).foldl max 0 * 30) + 10

/-- Conversion of one translate keyframe (identical in both modules):
frame index int(time * 30), x scaled by 0.01, y negated and scaled by
0.01. -/
def bakeTranslateKey (f : Keyframe) : ℤ × ℚ × ℚ :=
  (pyInt (f.time * 30), f.x * (1/100), -f.y * (1/100))

/-- Conversion of one rotate keyframe (identical in both modules): frame
index int(time * 30), angle through the host rt.radToDeg. -/
def bakeRotateKey (r2d : ℚ → ℚ) (f : Keyframe) : ℤ × ℚ :=
  (pyInt (f.time * 30), r2d f.angle)

/-- The keys baked for one bone: the translate and rotate channels,
converted keyframe by keyframe.  Scale tracks are scanned for the duration
but never baked, exactly as in the source. -/
structure BakedBone where
  translate : List (ℤ × ℚ × ℚ) := []
  rotate : List (ℤ × ℚ) := []
  deriving DecidableEq

/-- Baking of one clip: bones absent from the bone map are skipped (with a
warning in the source log), the rest get their converted translate and
rotate keys.  sstr is the safe_str variant the module applies to bone
names. -/
def bakeClip (sstr : StrL → StrL) (r2d : ℚ → ℚ)
    (bm : List (StrL × MaxBone)) (clip : AnimClip) : List (StrL × BakedBone) :=
  clip.bones.foldl (fun acc p =>
    let bn := sstr p.1
    if dictHas bm bn then
      acc ++ [(bn, ⟨(p.2.translate.getD []).map bakeTranslateKey,
                    (p.2.rotate.getD []).map (bakeRotateKey r2d)⟩)]
    else acc) []

/-- The baked timeline import_animation leaves on the host: the playback
range length and the keys applied per clip and bone. -/
structure BakedTimeline where
  durationFrames : ℤ
  clips : List (StrL × List (StrL × BakedBone))
  deriving DecidableEq

/-- import_animation (observable result, identical logic in both modules
apart from the safe_str variant sstr): select the animation source; when
it is empty, warn and bake nothing; otherwise set the timeline length and
bake every clip. -/
def importAnimationWith (sstr : StrL → StrL) (r2d : ℚ → ℚ)
    (doc : Doc) (bm : List (StrL × MaxBone)) :
    Option BakedTimeline × List Msg :=
  let anims := findAnimations doc.entries
  if anims.isEmpty then (none, [Msg.animMissing])
  else
    (some ⟨animLengthFrames anims,
           anims.map (fun c => (c.1, bakeClip sstr r2d bm c.2))⟩, [])

/-- Result of import_spine.  The fatal constructors are the early returns
that carry a single error message and no partial work; ok carries the
textures, bones and baked animation actually produced. -/
inductive ImportOutcome where
  | fatalJsonMissing
  | fatalAtlasMissing
  | fatalTexDirMissing
  | fatalJsonParse
  | ok (textures : List (StrL × Region)) (bones : List (StrL × MaxBone))
       (baked : Option BakedTimeline)
  deriving DecidableEq

/-- import_spine of spine_importer.py: existence checks on the three input
paths (each an early return), then json.load (a parse failure is caught by
the outer except), then textures, bones, meshes (host-side, not modelled) and
animation in sequence. -/
def importSpineOrig (fs : FS) (r2d : ℚ → ℚ)
    (jsonPath atlasPath texDir : StrL) (scale : ℚ) : ImportOutcome :=
  if !(fs.pathExists jsonPath) then .fatalJsonMissing
  else if !(fs.pathExists atlasPath) then .fatalAtlasMissing
  else if !(fs.pathExists texDir) then .fatalTexDirMissing
  else
    match fs.readJson jsonPath with
    | none => .fatalJsonParse
    | some doc =>
      let bm := createBonesOrig r2d doc scale
      .ok (loadTexturesOrig fs atlasPath texDir).textures bm.1
          (importAnimationWith safeStrOrig r2d doc bm.1).1

/-- import_spine of spine_importer_improved.py: validate_file_path also
treats an empty path as invalid; otherwise the same sequence. -/
def importSpineImpr (fs : FS) (r2d : ℚ → ℚ)
    (jsonPath atlasPath texDir : StrL) (scale : ℚ) : ImportOutcome :=
  if jsonPath.isEmpty || !(fs.pathExists jsonPath) then .fatalJsonMissing
  else if atlasPath.isEmpty || !(fs.pathExists atlasPath) then .fatalAtlasMissing
  else if texDir.isEmpty || !(fs.pathExists texDir) then .fatalTexDirMissing
  else
    match fs.readJson jsonPath with
    | none => .fatalJsonParse
    | some doc =>
      let bm := createBonesImpr r2d doc scale
      .ok (loadTexturesImpr fs atlasPath texDir).textures bm.1
          (importAnimationWith safeStrImpr r2d doc bm.1).1


/-- Boolean form of a resolved parent edge in a built bone map: bone c is
present and its parent link is p. -/
def resolvedEdgeB (m : List (StrL × MaxBone)) (c p : StrL) : Bool :=
  match dictGet m c with
  | some b => b.parent == some p
  | none => false

/-- Boolean form of a declared parent edge of the document under the
improved name handling: some record names c and declares truthy parent p. -/
def declEdgeBImpr (doc : Doc) (c p : StrL) : Bool :=
  doc.bones.any (fun rec =>
    (safeStrImpr (rec.name.getD []) == c) &&
    (safeStrImpr (rec.parent.getD []) == p) &&
    !(safeStrImpr (rec.parent.getD [])).isEmpty)

/-- Boolean form of a declared parent edge of the document under the
original name handling (records without a name key raise and are skipped). -/
def declEdgeBOrig (doc : Doc) (c p : StrL) : Bool :=
  doc.bones.any (fun rec =>
    match rec.name with
    | none => false
    | some nm =>
      (safeStrOrig nm == c) && (safeStrOrig (rec.parent.getD []) == p) &&
      !(safeStrOrig (rec.parent.getD [])).isEmpty)

/-- A directed cycle in a relation on bone names: a nonempty chain from
some name back to itself. -/
def hasCycle (R : StrL → StrL → Prop) : Prop :=
  ∃ c l, List.Chain R c (l ++ [c])

/-- A filesystem where every path exists and the atlas text declares
region a, rotates it to 5, then re-declares a (the duplicate line). -/
def fsDupAtlas : FS :=
  ⟨fun _ => true,
   fun _ => [strL "a.png", strL "rotate: 5", strL "a.png"],
   fun _ => none⟩

/-- The same filesystem with the atlas text cut before the duplicate
line. -/
def fsDupAtlasPre : FS :=
  ⟨fun _ => true, fun _ => [strL "a.png", strL "rotate: 5"], fun _ => none⟩

/-- A filesystem on which every existence check fails. -/
def fsAbsent : FS := ⟨fun _ => false, fun _ => [], fun _ => none⟩

/-- Animation document with one clip holding a translate track on root
with keyframes at t = 0, 1, 2 (end-to-end scenario B of the spec). -/
def docWalk : Doc :=
  ⟨[(strL "animations",
     [(strL "walk",
       ⟨[(strL "root",
          ⟨some [{ time := 0 }, { time := 1 }, { time := 2 }], none, none⟩)]⟩)])],
   []⟩

/-- The rational 1/4, written as an explicit normalised fraction. -/
def qFourth : ℚ := ⟨1, 4, by norm_num, by norm_num⟩

/-- Animation document with a single translate keyframe at t = 1/4, where
flooring and ceiling of maxTime * 30 = 7.5 differ. -/
def docQuarter : Doc :=
  ⟨[(strL "animations",
     [(strL "run",
       ⟨[(strL "root", ⟨some [{ time := qFourth }], none, none⟩)]⟩)])],
   []⟩

/-- Skeleton document with a single self-parenting bone a. -/
def docSelfParent : Doc :=
  ⟨[], [{ name := some (strL "a"), parent := some (strL "a") }]⟩

/-- Skeleton document with a two-bone chain child -> root (end-to-end
scenario A, shortened). -/
def docChain : Doc :=
  ⟨[], [{ name := some (strL "root") },
        { name := some (strL "child"), parent := some (strL "root") }]⟩

/-- Skeleton document with one bone whose name is the empty string. -/
def docEmptyName : Doc := ⟨[], [{ name := some [] }]⟩

/-- Skeleton document with one bone b whose declared parent ghost does not
exist. -/
def docGhost : Doc :=
  ⟨[], [{ name := some (strL "b"), parent := some (strL "ghost") }]⟩

/-- Skeleton document whose animations key is empty and whose only other
top-level key matches the anim heuristic but is also empty. -/
def docNoAnim : Doc :=
  ⟨[(strL "animations", []), (strL "motionData", [])],
   [{ name := some (strL "root") }]⟩

/-- A filesystem whose JSON document is docNoAnim and on which every path
exists. -/
def fsNoAnim : FS := ⟨fun _ => true, fun _ => [], fun _ => some docNoAnim⟩

/-- Top-level entries where the animations key is empty and the first
matching key with a non-empty value is MyAnimation. -/
def entriesFallback : List (StrL × ClipMap) :=
  [(strL "animations", []),
   (strL "skin", [(strL "ignored", ⟨[]⟩)]),
   (strL "MyAnimation", [(strL "clip1", ⟨[]⟩)])]

/-- Lookup after a Python dict assignment: the assigned key reads the new
value, every other key is untouched. -/
theorem dictGet_insert {α : Type} (m : List (StrL × α)) (k : StrL) (v : α) (k2 : StrL) :
    dictGet (dictInsert m k v) k2 = if k2 = k then some v else dictGet m k2 := by
  induction m with
  | nil =>
    by_cases h : k2 = k
    · subst h; simp [dictInsert, dictGet]
    · have hb : (k == k2) = false := beq_eq_false_iff_ne.mpr (fun he => h he.symm)
      simp [dictInsert, dictGet, hb, h]
  | cons p rest ih =>
    by_cases hpk : p.1 = k
    · have hb : (p.1 == k) = true := beq_iff_eq.mpr hpk
      by_cases h2 : k2 = k
      · subst h2; simp [dictInsert, dictGet, hb]
      · have hbk : (k == k2) = false := beq_eq_false_iff_ne.mpr (fun he => h2 he.symm)
        have hbp : (p.1 == k2) = false :=
          beq_eq_false_iff_ne.mpr (fun he => h2 (he.symm.trans hpk))
        simp [dictInsert, dictGet, hb, hbk, hbp, h2]
    · have hb : (p.1 == k) = false := beq_eq_false_iff_ne.mpr hpk
      by_cases h2 : p.1 = k2
      · have hbp : (p.1 == k2) = true := beq_iff_eq.mpr h2
        have hk2 : ¬ k2 = k := fun he => hpk (h2.trans he)
        simp [dictInsert, dictGet, hb, hbp, hk2]
      · have hbp : (p.1 == k2) = false := beq_eq_false_iff_ne.mpr h2
        by_cases h3 : k2 = k <;> simp [dictInsert, dictGet, hb, hbp, h3] <;>
          simpa [h3] using ih

/-- Membership after a Python dict assignment. -/
theorem dictHas_insert {α : Type} (m : List (StrL × α)) (k : StrL) (v : α) (k2 : StrL) :
    dictHas (dictInsert m k v) k2 = if k2 = k then true else dictHas m k2 := by
  by_cases h : k2 = k <;> simp [dictHas, dictGet_insert, h]

/-- Lookup after the in-place field mutation d[k].field = v. -/
theorem dictGet_modify {α : Type} (m : List (StrL × α)) (k : StrL) (f : α → α) (k2 : StrL) :
    dictGet (dictModify m k f) k2 = if k2 = k then (dictGet m k2).map f else dictGet m k2 := by
  induction m with
  | nil => by_cases h : k2 = k <;> simp [dictModify, dictGet, h]
  | cons p rest ih =>
    by_cases hpk : p.1 = k
    · have hb : (p.1 == k) = true := beq_iff_eq.mpr hpk
      by_cases h2 : p.1 = k2
      · have hbp : (p.1 == k2) = true := beq_iff_eq.mpr h2
        have hk2 : k2 = k := h2.symm.trans hpk
        simp [dictModify, dictGet, hb, hbp, hk2]
      · have hbp : (p.1 == k2) = false := beq_eq_false_iff_ne.mpr h2
        by_cases h3 : k2 = k
        · subst h3
          have : (p.1 == k2) = true := beq_iff_eq.mpr hpk
          exact absurd this (by simp [hbp])
        · simp [dictModify, dictGet, hb, hbp, h3]
    · have hb : (p.1 == k) = false := beq_eq_false_iff_ne.mpr hpk
      by_cases h2 : p.1 = k2
      · have hbp : (p.1 == k2) = true := beq_iff_eq.mpr h2
        have hk2 : ¬ k2 = k := fun he => hpk (h2.trans he)
        simp [dictModify, dictGet, hb, hbp, hk2]
      · have hbp : (p.1 == k2) = false := beq_eq_false_iff_ne.mpr h2
        by_cases h3 : k2 = k <;> simp [dictModify, dictGet, hb, hbp, h3] <;>
          simpa [h3] using ih

/-- In-place field mutation does not change the key set. -/
theorem dictHas_modify {α : Type} (m : List (StrL × α)) (k : StrL) (f : α → α) (k2 : StrL) :
    dictHas (dictModify m k f) k2 = dictHas m k2 := by
  by_cases h : k2 = k <;> simp [dictHas, dictGet_modify, h]

/-- The running maximum never drops below its seed. -/
theorem le_foldlMax (l : List ℚ) (a : ℚ) : a ≤ l.foldl max a := by
  induction l generalizing a with
  | nil => exact le_rfl
  | cons b t ih => exact le_trans (le_max_left a b) (ih (max a b))

/-- The running maximum dominates every list element. -/
theorem mem_le_foldlMax (l : List ℚ) (a t : ℚ) (h : t ∈ l) : t ≤ l.foldl max a := by
  induction l generalizing a with
  | nil => cases h
  | cons b rest ih =>
    rcases List.mem_cons.mp h with hb | hrest
    · subst hb
      exact le_trans (le_max_right a t) (le_foldlMax rest (max a t))
    · exact ih (max a b) hrest

/-- The running maximum is the seed or some list element. -/
theorem foldlMax_cases (l : List ℚ) (a : ℚ) : l.foldl max a = a ∨ l.foldl max a ∈ l := by
  induction l generalizing a with
  | nil => exact Or.inl rfl
  | cons b rest ih =>
    rcases ih (max a b) with h | h
    · rcases max_choice a b with hm | hm
      · exact Or.inl (by rw [List.foldl_cons, h, hm])
      · exact Or.inr (by rw [List.foldl_cons, h, hm]; exact List.mem_cons_self b rest)
    · exact Or.inr (List.mem_cons_of_mem b h)

/-- The fold of max over a nonempty list of times seeded with 0 computes
the maximum element, provided that maximum is nonnegative. -/
theorem foldlMax_eq_max (l : List ℚ) (m : ℚ) (hm : m ∈ l)
    (hub : ∀ t ∈ l, t ≤ m) (h0 : 0 ≤ m) : l.foldl max 0 = m := by
  refine le_antisymm ?_ (mem_le_foldlMax l 0 m hm)
  rcases foldlMax_cases l 0 with h | h
  · rw [h]; exact h0
  · exact hub _ h

/-- The running maximum seeded with 0 is nonnegative. -/
theorem foldlMax_nonneg (l : List ℚ) : 0 ≤ l.foldl max 0 := le_foldlMax l 0

/-- Python int() agrees with the floor on nonnegative values (truncation
towards zero and flooring differ only below zero). -/
theorem pyInt_eq_floor (q : ℚ) (h : 0 ≤ q) : pyInt q = ⌊q⌋ := by
  obtain ⟨n, hn⟩ := Int.eq_ofNat_of_zero_le (Rat.num_nonneg.mpr h)
  rw [Rat.floor_def, pyInt, hn]
  rfl

/-- int() of 0 is 0. -/
theorem pyInt_zero : pyInt 0 = 0 := rfl

/-- Fold invariant: a property preserved by every step along a list holds
for the final accumulator. -/
theorem foldl_inv {σ α : Type} (step : σ → α → σ) (P : σ → Prop) :
    ∀ (l : List α) (acc : σ),
      (∀ acc0 r, r ∈ l → P acc0 → P (step acc0 r)) → P acc → P (l.foldl step acc)
  | [], _, _, h => h
  | r :: rest, acc, hstep, h =>
    foldl_inv step P rest (step acc r)
      (fun a0 x hx => hstep a0 x (List.mem_cons_of_mem _ hx))
      (hstep acc r (List.mem_cons_self _ _) h)

/-- Every bone stored by pass 1 of the improved builder has no parent
link yet. -/
theorem pass1Impr_parents_none (r2d : ℚ → ℚ) (scale : ℚ) (recs : List BoneRec)
    (acc : List (StrL × MaxBone) × List Msg)
    (hacc : ∀ n b, dictGet acc.1 n = some b → b.parent = none) :
    ∀ n b, dictGet ((recs.foldl (pass1StepImpr r2d scale) acc)).1 n = some b →
      b.parent = none := by
  refine foldl_inv (pass1StepImpr r2d scale)
    (fun s => ∀ n b, dictGet s.1 n = some b → b.parent = none) recs acc ?_ hacc
  intro s rec _ hP n b hget
  simp only [pass1StepImpr] at hget
  by_cases hnm : (safeStrImpr (rec.name.getD [])).isEmpty = true
  · simp only [if_pos hnm] at hget
    exact hP n b hget
  · simp only [if_neg hnm] at hget
    rw [dictGet_insert] at hget
    by_cases hn : n = safeStrImpr (rec.name.getD [])
    · rw [if_pos hn] at hget
      cases hget
      rfl
    · rw [if_neg hn] at hget
      exact hP n b hget

/-- Every bone stored by pass 1 of the original builder has no parent
link yet. -/
theorem pass1Orig_parents_none (r2d : ℚ → ℚ) (scale : ℚ) (recs : List BoneRec)
    (acc : List (StrL × MaxBone) × List Msg)
    (hacc : ∀ n b, dictGet acc.1 n = some b → b.parent = none) :
    ∀ n b, dictGet ((recs.foldl (pass1StepOrig r2d scale) acc)).1 n = some b →
      b.parent = none := by
  refine foldl_inv (pass1StepOrig r2d scale)
    (fun s => ∀ n b, dictGet s.1 n = some b → b.parent = none) recs acc ?_ hacc
  intro s rec _ hP n b hget
  simp only [pass1StepOrig] at hget
  cases hname : rec.name with
  | none =>
    simp only [hname] at hget
    exact hP n b hget
  | some nm0 =>
    simp only [hname] at hget
    rw [dictGet_insert] at hget
    by_cases hn : n = safeStrOrig nm0
    · rw [if_pos hn] at hget
      cases hget
      rfl
    · rw [if_neg hn] at hget
      exact hP n b hget

/-- Result map of one improved pass-2 step: either unchanged, or a single
parent-link mutation whose parent name is truthy and resolvable in the
map. -/
theorem pass2StepImpr_map_cases (m : List (StrL × MaxBone)) (ws : List Msg) (rec : BoneRec) :
    (pass2StepImpr (m, ws) rec).1 = m ∨
    (safeStrImpr (rec.parent.getD []) ≠ [] ∧
     dictHas m (safeStrImpr (rec.parent.getD [])) = true ∧
     (pass2StepImpr (m, ws) rec).1 =
       dictModify m (safeStrImpr (rec.name.getD []))
         (fun b => { b with parent := some (safeStrImpr (rec.parent.getD [])) })) := by
  simp only [pass2StepImpr]
  by_cases hc : (!(safeStrImpr (rec.parent.getD [])).isEmpty &&
      dictHas m (safeStrImpr (rec.parent.getD [])) &&
      dictHas m (safeStrImpr (rec.name.getD []))) = true
  · right
    have hc2 := hc
    simp only [Bool.and_eq_true] at hc2
    obtain ⟨⟨hne, hhas⟩, _⟩ := hc2
    refine ⟨?_, hhas, ?_⟩
    · intro he
      rw [he] at hne
      simp at hne
    · rw [if_pos hc]
  · left
    rw [if_neg hc]
    by_cases hc2 : (!(safeStrImpr (rec.parent.getD [])).isEmpty &&
        !dictHas m (safeStrImpr (rec.parent.getD []))) = true
    · rw [if_pos hc2]
    · rw [if_neg hc2]

/-- Result map of one original pass-2 step: either unchanged, or a single
parent-link mutation whose parent name is truthy and resolvable in the
map, on a record that carries a name key. -/
theorem pass2StepOrig_map_cases (m : List (StrL × MaxBone)) (ws : List Msg) (rec : BoneRec) :
    (pass2StepOrig (m, ws) rec).1 = m ∨
    (∃ nm0, rec.name = some nm0 ∧
     safeStrOrig (rec.parent.getD []) ≠ [] ∧
     dictHas m (safeStrOrig (rec.parent.getD [])) = true ∧
     (pass2StepOrig (m, ws) rec).1 =
       dictModify m (safeStrOrig nm0)
         (fun b => { b with parent := some (safeStrOrig (rec.parent.getD [])) })) := by
  cases hname : rec.name with
  | none => exact Or.inl (by simp only [pass2StepOrig, hname])
  | some nm0 =>
    simp only [pass2StepOrig, hname]
    by_cases hc : (!(safeStrOrig (rec.parent.getD [])).isEmpty &&
        dictHas m (safeStrOrig (rec.parent.getD [])) &&
        dictHas m (safeStrOrig nm0)) = true
    · right
      have hc2 := hc
      simp only [Bool.and_eq_true] at hc2
      obtain ⟨⟨hne, hhas⟩, _⟩ := hc2
      refine ⟨nm0, rfl, ?_, hhas, ?_⟩
      · intro he
        rw [he] at hne
        simp at hne
      · rw [if_pos hc]
    · left
      rw [if_neg hc]

/-- Setting one parent link to a name already present in the map keeps
the map closed under parent references. -/
theorem closed_modify (m : List (StrL × MaxBone)) (bn pn : StrL)
    (hm : ∀ n b p, dictGet m n = some b → b.parent = some p → dictHas m p = true)
    (hpn : dictHas m pn = true) :
    ∀ n b p,
      dictGet (dictModify m bn (fun b => { b with parent := some pn })) n = some b →
      b.parent = some p →
      dictHas (dictModify m bn (fun b => { b with parent := some pn })) p = true := by
  intro n b p hget hp
  rw [dictHas_modify]
  rw [dictGet_modify] at hget
  by_cases hn : n = bn
  · rw [if_pos hn] at hget
    rcases Option.map_eq_some'.mp hget with ⟨b0, _, hbeq⟩
    have hbp : b.parent = some pn := by rw [← hbeq]
    rw [hbp] at hp
    cases hp
    exact hpn
  · rw [if_neg hn] at hget
    exact hm n b p hget hp

/-- C3 counterexample: on a document whose only bone b declares the
nonexistent parent ghost, create_bones of spine_importer.py leaves b a
root but emits no warning at all about the unresolved parent (the log of
the run holds only the creation message), contradicting the claim that an
absent parentName leaves the bone a root with a warning in both modules. -/
theorem c3_counterexample :
    (createBonesOrig id docGhost 1).2 = [Msg.boneCreated (strL "b")] ∧
    (dictGet (createBonesOrig id docGhost 1).1 (strL "b")).map MaxBone.parent =
      some none := by
  constructor <;> decide

/-- C3 (amended): in both modules every bone of the built map has either
no parent or a parent that is itself a key of the map (no dangling parent
reference survives pass 2); a declared parent name absent from the map
leaves the map unchanged, with a warning in the improved module and
silently in the original module. -/
theorem c3_no_dangling_parents (r2d : ℚ → ℚ) (doc : Doc) (scale : ℚ) :
    (∀ n b p, dictGet (createBonesImpr r2d doc scale).1 n = some b →
       b.parent = some p → dictHas (createBonesImpr r2d doc scale).1 p = true) ∧
    (∀ n b p, dictGet (createBonesOrig r2d doc scale).1 n = some b →
       b.parent = some p → dictHas (createBonesOrig r2d doc scale).1 p = true) ∧
    (∀ (m : List (StrL × MaxBone)) (ws : List Msg) (rec : BoneRec),
       safeStrImpr (rec.parent.getD []) ≠ [] →
       dictHas m (safeStrImpr (rec.parent.getD [])) = false →
       pass2StepImpr (m, ws) rec =
         (m, ws ++ [Msg.parentMissing (safeStrImpr (rec.parent.getD []))])) ∧
    (∀ (m : List (StrL × MaxBone)) (ws : List Msg) (rec : BoneRec) (nm0 : StrL),
       rec.name = some nm0 →
       dictHas m (safeStrOrig (rec.parent.getD [])) = false →
       pass2StepOrig (m, ws) rec = (m, ws)) := by
  refine ⟨?_, ?_, ?_, ?_⟩
  · unfold createBonesImpr
    by_cases hempty : doc.bones.isEmpty = true
    · rw [if_pos hempty]
      intro n b p hg
      cases hg
    · rw [if_neg hempty]
      refine foldl_inv pass2StepImpr
        (fun s => ∀ n b p, dictGet s.1 n = some b → b.parent = some p →
          dictHas s.1 p = true) doc.bones _ ?_ ?_
      · intro s rec _ hP n b p hg hp
        obtain ⟨m0, ws0⟩ := s
        rcases pass2StepImpr_map_cases m0 ws0 rec with heq | ⟨_, hhas, heq⟩
        · rw [heq] at hg ⊢
          exact hP n b p hg hp
        · rw [heq] at hg ⊢
          exact closed_modify m0 _ _ hP hhas n b p hg hp
      · intro n b p hg hp
        have := pass1Impr_parents_none r2d scale doc.bones ([], [])
          (fun n b hgg => by cases hgg) n b hg
        rw [this] at hp
        cases hp
  · unfold createBonesOrig
    refine foldl_inv pass2StepOrig
      (fun s => ∀ n b p, dictGet s.1 n = some b → b.parent = some p →
        dictHas s.1 p = true) doc.bones _ ?_ ?_
    · intro s rec _ hP n b p hg hp
      obtain ⟨m0, ws0⟩ := s
      rcases pass2StepOrig_map_cases m0 ws0 rec with heq | ⟨nm0, _, _, hhas, heq⟩
      · rw [heq] at hg ⊢
        exact hP n b p hg hp
      · rw [heq] at hg ⊢
        exact closed_modify m0 _ _ hP hhas n b p hg hp
    · intro n b p hg hp
      have := pass1Orig_parents_none r2d scale doc.bones ([], [])
        (fun n b hgg => by cases hgg) n b hg
      rw [this] at hp
      cases hp
  · intro m ws rec hne hhas
    have hbne : (safeStrImpr (rec.parent.getD [])).isEmpty = false := by
      cases hl : (safeStrImpr (rec.parent.getD [])) with
      | nil => exact absurd hl hne
      | cons c t => rfl
    simp only [pass2StepImpr]
    rw [if_neg (by rw [hbne, hhas]; simp), if_pos (by rw [hbne, hhas]; rfl)]
  · intro m ws rec nm0 hname hhas
    simp only [pass2StepOrig, hname]
    rw [if_neg (by rw [hhas]; simp)]

/-- C3 witness: on the two-bone chain document the built maps are closed
under parent lookups, and the two step facts hold at a concrete state and
record. -/
theorem c3_no_dangling_parents_witness :
    dictHas (createBonesImpr id docChain 1).1 (strL "root") = true ∧
    dictHas (createBonesOrig id docChain 1).1 (strL "root") = true ∧
    pass2StepImpr ([], []) { name := some (strL "b"), parent := some (strL "ghost") } =
      ([], [Msg.parentMissing (strL "ghost")]) ∧
    pass2StepOrig ([], []) { name := some (strL "b"), parent := some (strL "ghost") } =
      ([], []) := by
  have h := c3_no_dangling_parents id docChain 1
  refine ⟨?_, ?_, ?_, ?_⟩
  · have hget : (dictGet (createBonesImpr id docChain 1).1 (strL "child")).map
        MaxBone.parent = some (some (strL "root")) := by decide
    rcases Option.map_eq_some'.mp hget with ⟨b, hb, hbp⟩
    exact h.1 (strL "child") b (strL "root") hb hbp
  · have hget : (dictGet (createBonesOrig id docChain 1).1 (strL "child")).map
        MaxBone.parent = some (some (strL "root")) := by decide
    rcases Option.map_eq_some'.mp hget with ⟨b, hb, hbp⟩
    exact h.2.1 (strL "child") b (strL "root") hb hbp
  · exact h.2.2.1 [] [] _ (by decide) (by decide)
  · exact h.2.2.2 [] [] _ (strL "b") rfl (by decide)

/-- A resolved edge after one parent-link mutation comes from the mutation
itself (on a key present in the map) or was already resolved before. -/
theorem resolvedEdge_modify (m : List (StrL × MaxBone)) (bn pn c p : StrL)
    (h : resolvedEdgeB (dictModify m bn (fun b => { b with parent := some pn })) c p = true) :
    (c = bn ∧ p = pn) ∨ resolvedEdgeB m c p = true := by
  unfold resolvedEdgeB at h ⊢
  rw [dictGet_modify] at h
  by_cases hc : c = bn
  · rw [if_pos hc] at h
    cases hg : dictGet m c with
    | none => rw [hg] at h; simp at h
    | some b0 =>
      rw [hg] at h
      simp only [Option.map_some'] at h
      have hpp : pn = p := by simpa using h
      exact Or.inl ⟨hc, hpp.symm⟩
  · rw [if_neg hc] at h
    exact Or.inr h

/-- The record processed by a linking pass-2 step witnesses a declared
edge of the document (improved name handling). -/
theorem declEdgeBImpr_of_rec (doc : Doc) (rec : BoneRec) (hrec : rec ∈ doc.bones)
    (hne : safeStrImpr (rec.parent.getD []) ≠ []) :
    declEdgeBImpr doc (safeStrImpr (rec.name.getD []))
      (safeStrImpr (rec.parent.getD [])) = true := by
  have hbne : (safeStrImpr (rec.parent.getD [])).isEmpty = false := by
    cases hl : (safeStrImpr (rec.parent.getD [])) with
    | nil => exact absurd hl hne
    | cons c t => rfl
  unfold declEdgeBImpr
  rw [List.any_eq_true]
  exact ⟨rec, hrec, by simp [hbne]⟩

/-- The record processed by a linking pass-2 step witnesses a declared
edge of the document (original name handling). -/
theorem declEdgeBOrig_of_rec (doc : Doc) (rec : BoneRec) (nm0 : StrL)
    (hrec : rec ∈ doc.bones) (hname : rec.name = some nm0)
    (hne : safeStrOrig (rec.parent.getD []) ≠ []) :
    declEdgeBOrig doc (safeStrOrig nm0) (safeStrOrig (rec.parent.getD [])) = true := by
  have hbne : (safeStrOrig (rec.parent.getD [])).isEmpty = false := by
    cases hl : (safeStrOrig (rec.parent.getD [])) with
    | nil => exact absurd hl hne
    | cons c t => rfl
  unfold declEdgeBOrig
  rw [List.any_eq_true]
  exact ⟨rec, hrec, by rw [hname]; simp [hbne]⟩

/-- A cycle of a subrelation is a cycle of the superrelation. -/
theorem hasCycle_mono (R S : StrL → StrL → Prop) (h : ∀ a b, R a b → S a b) :
    hasCycle R → hasCycle S := by
  rintro ⟨c, l, hc⟩
  exact ⟨c, l, List.Chain.imp h hc⟩

/-- Every resolved parent edge of the improved builder is a declared edge
of the document. -/
theorem createBonesImpr_edges_declared (r2d : ℚ → ℚ) (doc : Doc) (scale : ℚ) :
    ∀ c p, resolvedEdgeB (createBonesImpr r2d doc scale).1 c p = true →
      declEdgeBImpr doc c p = true := by
  unfold createBonesImpr
  by_cases hempty : doc.bones.isEmpty = true
  · rw [if_pos hempty]
    intro c p h
    simp [resolvedEdgeB, dictGet] at h
  · rw [if_neg hempty]
    refine foldl_inv pass2StepImpr
      (fun s => ∀ c p, resolvedEdgeB s.1 c p = true → declEdgeBImpr doc c p = true)
      doc.bones _ ?_ ?_
    · intro s rec hrec hP c p h
      obtain ⟨m0, ws0⟩ := s
      rcases pass2StepImpr_map_cases m0 ws0 rec with heq | ⟨hne, _, heq⟩
      · rw [heq] at h
        exact hP c p h
      · rw [heq] at h
        rcases resolvedEdge_modify m0 _ _ c p h with ⟨hc, hp⟩ | hold
        · rw [hc, hp]
          exact declEdgeBImpr_of_rec doc rec hrec hne
        · exact hP c p hold
    · intro c p h
      unfold resolvedEdgeB at h
      cases hg : dictGet (doc.bones.foldl (pass1StepImpr r2d scale) ([], [])).1 c with
      | none => rw [hg] at h; simp at h
      | some b =>
        rw [hg] at h
        have hb := pass1Impr_parents_none r2d scale doc.bones ([], [])
          (fun n b hgg => by cases hgg) c b hg
        simp [hb] at h

/-- Every resolved parent edge of the original builder is a declared edge
of the document. -/
theorem createBonesOrig_edges_declared (r2d : ℚ → ℚ) (doc : Doc) (scale : ℚ) :
    ∀ c p, resolvedEdgeB (createBonesOrig r2d doc scale).1 c p = true →
      declEdgeBOrig doc c p = true := by
  unfold createBonesOrig
  refine foldl_inv pass2StepOrig
    (fun s => ∀ c p, resolvedEdgeB s.1 c p = true → declEdgeBOrig doc c p = true)
    doc.bones _ ?_ ?_
  · intro s rec hrec hP c p h
    obtain ⟨m0, ws0⟩ := s
    rcases pass2StepOrig_map_cases m0 ws0 rec with heq | ⟨nm0, hname, hne, _, heq⟩
    · rw [heq] at h
      exact hP c p h
    · rw [heq] at h
      rcases resolvedEdge_modify m0 _ _ c p h with ⟨hc, hp⟩ | hold
      · rw [hc, hp]
        exact declEdgeBOrig_of_rec doc rec nm0 hrec hname hne
      · exact hP c p hold
  · intro c p h
    unfold resolvedEdgeB at h
    cases hg : dictGet (doc.bones.foldl (pass1StepOrig r2d scale) ([], [])).1 c with
    | none => rw [hg] at h; simp at h
    | some b =>
      rw [hg] at h
      have hb := pass1Orig_parents_none r2d scale doc.bones ([], [])
        (fun n b hgg => by cases hgg) c b hg
      simp [hb] at h

/-- C6 counterexample: on the document whose bone a declares itself as
parent, the improved builder installs the self-link (the bone is neither
rejected nor left parentless) and the resolved parent graph has a cycle,
contradicting the claimed detect-and-reject policy. -/
theorem c6_counterexample :
    (dictGet (createBonesImpr id docSelfParent 1).1 (strL "a")).map MaxBone.parent =
      some (some (strL "a")) ∧
    hasCycle (fun a b => resolvedEdgeB (createBonesImpr id docSelfParent 1).1 a b = true) := by
  constructor
  · decide
  · exact ⟨strL "a", [], List.Chain.cons (by decide) List.Chain.nil⟩

/-- C6 (amended): the builders perform no cycle detection; instead, every
resolved parent edge (in either module) is an edge declared by the
document, hence any cycle of the resolved parent graph is already a cycle
of the declared parent graph - so documents whose declared parent
references are acyclic yield acyclic resolved graphs. -/
theorem c6_resolved_cycles_are_declared (r2d : ℚ → ℚ) (doc : Doc) (scale : ℚ) :
    (∀ c p, resolvedEdgeB (createBonesImpr r2d doc scale).1 c p = true →
       declEdgeBImpr doc c p = true) ∧
    (∀ c p, resolvedEdgeB (createBonesOrig r2d doc scale).1 c p = true →
       declEdgeBOrig doc c p = true) ∧
    (hasCycle (fun a b => resolvedEdgeB (createBonesImpr r2d doc scale).1 a b = true) →
       hasCycle (fun a b => declEdgeBImpr doc a b = true)) ∧
    (hasCycle (fun a b => resolvedEdgeB (createBonesOrig r2d doc scale).1 a b = true) →
       hasCycle (fun a b => declEdgeBOrig doc a b = true)) := by
  refine ⟨createBonesImpr_edges_declared r2d doc scale,
          createBonesOrig_edges_declared r2d doc scale, ?_, ?_⟩
  · exact hasCycle_mono _ _ (createBonesImpr_edges_declared r2d doc scale)
  · exact hasCycle_mono _ _ (createBonesOrig_edges_declared r2d doc scale)

/-- C6 witness: the resolved edge child -> root of the chain document is
declared, and the self-parent cycle of the resolved graph is traced back
to a declared cycle. -/
theorem c6_resolved_cycles_are_declared_witness :
    declEdgeBImpr docChain (strL "child") (strL "root") = true ∧
    declEdgeBOrig docChain (strL "child") (strL "root") = true ∧
    hasCycle (fun a b => declEdgeBImpr docSelfParent a b = true) := by
  refine ⟨?_, ?_, ?_⟩
  · exact (c6_resolved_cycles_are_declared id docChain 1).1
      (strL "child") (strL "root") (by decide)
  · exact (c6_resolved_cycles_are_declared id docChain 1).2.1
      (strL "child") (strL "root") (by decide)
  · exact (c6_resolved_cycles_are_declared id docSelfParent 1).2.2.1
      ⟨strL "a", [], List.Chain.cons (by decide) List.Chain.nil⟩

/-- Every key of the improved builder output is a nonempty name. -/
theorem createBonesImpr_keys_nonempty (r2d : ℚ → ℚ) (doc : Doc) (scale : ℚ) :
    ∀ k, dictHas (createBonesImpr r2d doc scale).1 k = true → k ≠ [] := by
  unfold createBonesImpr
  by_cases hempty : doc.bones.isEmpty = true
  · rw [if_pos hempty]
    intro k h
    cases h
  · rw [if_neg hempty]
    have h1 : ∀ k, dictHas (doc.bones.foldl (pass1StepImpr r2d scale) ([], [])).1 k = true →
        k ≠ [] := by
      refine foldl_inv (pass1StepImpr r2d scale)
        (fun s => ∀ k, dictHas s.1 k = true → k ≠ []) doc.bones ([], []) ?_ ?_
      · intro s rec _ hP k h
        simp only [pass1StepImpr] at h
        by_cases hnm : (safeStrImpr (rec.name.getD [])).isEmpty = true
        · simp only [if_pos hnm] at h
          exact hP k h
        · simp only [if_neg hnm] at h
          rw [dictHas_insert] at h
          by_cases hk : k = safeStrImpr (rec.name.getD [])
          · intro he
            rw [he] at hk
            rw [← hk] at hnm
            exact hnm rfl
          · rw [if_neg hk] at h
            exact hP k h
      · intro k h
        cases h
    refine foldl_inv pass2StepImpr
      (fun s => ∀ k, dictHas s.1 k = true → k ≠ []) doc.bones _ ?_ h1
    intro s rec _ hP k h
    obtain ⟨m0, ws0⟩ := s
    rcases pass2StepImpr_map_cases m0 ws0 rec with heq | ⟨_, _, heq⟩
    · rw [heq] at h
      exact hP k h
    · rw [heq, dictHas_modify] at h
      exact hP k h

/-- No bone of the original builder output has the empty string as its
parent link (empty parent names are falsy and never linked). -/
theorem createBonesOrig_no_empty_parent (r2d : ℚ → ℚ) (doc : Doc) (scale : ℚ) :
    ∀ n b, dictGet (createBonesOrig r2d doc scale).1 n = some b →
      b.parent ≠ some [] := by
  unfold createBonesOrig
  refine foldl_inv pass2StepOrig
    (fun s => ∀ n b, dictGet s.1 n = some b → b.parent ≠ some []) doc.bones _ ?_ ?_
  · intro s rec _ hP n b hg
    obtain ⟨m0, ws0⟩ := s
    rcases pass2StepOrig_map_cases m0 ws0 rec with heq | ⟨nm0, _, hne, _, heq⟩
    · rw [heq] at hg
      exact hP n b hg
    · rw [heq] at hg
      rw [dictGet_modify] at hg
      by_cases hn : n = safeStrOrig nm0
      · rw [if_pos hn] at hg
        rcases Option.map_eq_some'.mp hg with ⟨b0, _, hbeq⟩
        have : b.parent = some (safeStrOrig (rec.parent.getD [])) := by rw [← hbeq]
        rw [this]
        intro he
        exact hne (Option.some.inj he)
      · rw [if_neg hn] at hg
        exact hP n b hg
  · intro n b hg
    have := pass1Orig_parents_none r2d scale doc.bones ([], [])
      (fun n b hgg => by cases hgg) n b hg
    rw [this]
    intro he
    cases he

/-- C7 counterexample: a bone record whose name is the empty string is NOT
skipped by create_bones of spine_importer.py - it is registered under the
empty string (with a creation message, not a warning), contradicting the
claim that an empty name is excluded from the map in both modules. -/
theorem c7_counterexample :
    dictHas (createBonesOrig id docEmptyName 1).1 [] = true ∧
    (createBonesOrig id docEmptyName 1).2 = [Msg.boneCreated []] ∧
    dictHas (createBonesImpr id docEmptyName 1).1 [] = false := by
  refine ⟨?_, ?_, ?_⟩ <;> decide

/-- C7 (amended): the improved builder skips a record whose safe name is
empty with a warning, so the empty string is never a key of its map; the
original builder skips only a record with no name key at all (via the
KeyError path), registers an empty-named bone under the empty string, yet
still never resolves the empty string as a parent link (empty parent
names are falsy). -/
theorem c7_empty_name_policy (r2d : ℚ → ℚ) (doc : Doc) (scale : ℚ) :
    (∀ k, dictHas (createBonesImpr r2d doc scale).1 k = true → k ≠ []) ∧
    (∀ (m : List (StrL × MaxBone)) (ws : List Msg) (rec : BoneRec),
       safeStrImpr (rec.name.getD []) = [] →
       pass1StepImpr r2d scale (m, ws) rec = (m, ws ++ [Msg.unnamedBone])) ∧
    (∀ n b, dictGet (createBonesOrig r2d doc scale).1 n = some b →
       b.parent ≠ some []) ∧
    (∀ (m : List (StrL × MaxBone)) (ws : List Msg) (rec : BoneRec),
       rec.name = none →
       pass1StepOrig r2d scale (m, ws) rec = (m, ws ++ [Msg.boneFailed])) := by
  refine ⟨createBonesImpr_keys_nonempty r2d doc scale, ?_,
          createBonesOrig_no_empty_parent r2d doc scale, ?_⟩
  · intro m ws rec hnm
    simp only [pass1StepImpr, hnm]
    rfl
  · intro m ws rec hname
    simp only [pass1StepOrig, hname]

/-- C7 witness: concrete instances of all four parts at the chain
document, an empty-named record and a nameless record. -/
theorem c7_empty_name_policy_witness :
    strL "root" ≠ ([] : StrL) ∧
    pass1StepImpr id 1 ([], []) { name := some [] } = ([], [Msg.unnamedBone]) ∧
    (dictGet (createBonesOrig id docChain 1).1 (strL "child")).map MaxBone.parent =
      some (some (strL "root")) ∧
    pass1StepOrig id 1 ([], []) { name := none } = ([], [Msg.boneFailed]) := by
  have h := c7_empty_name_policy id docChain 1
  refine ⟨?_, ?_, ?_, ?_⟩
  · exact h.1 (strL "root") (by decide)
  · exact h.2.1 [] [] { name := some [] } (by decide)
  · have hget : (dictGet (createBonesOrig id docChain 1).1 (strL "child")).map
        MaxBone.parent = some (some (strL "root")) := by decide
    rcases Option.map_eq_some'.mp hget with ⟨b, hb, hbp⟩
    have := h.2.2.1 (strL "child") b hb
    exact hget
  · exact h.2.2.2 [] [] { name := none } rfl

/-- C2 counterexample: with the atlas text a.png / rotate: 5 / a.png (all
files present), load_textures of spine_importer.py ends with region a at
rotation 0, while after the first two lines it was 5: the re-declaring
third line DID overwrite the region (resetting its rotation), so atlas
parsing is not idempotent in the original module. -/
theorem c2_counterexample :
    (dictGet (loadTexturesOrig fsDupAtlas (strL "atlas") (strL "tex")).textures
       (strL "a")).map Region.rotation = some (0 : ℚ) ∧
    (dictGet (loadTexturesOrig fsDupAtlasPre (strL "atlas") (strL "tex")).textures
       (strL "a")).map Region.rotation = some (5 : ℚ) ∧
    (0 : ℚ) ≠ 5 := by
  refine ⟨?_, ?_, ?_⟩ <;> decide

/-- C2 (amended): in the improved module a line re-declaring an already
registered region name is a no-op with a log message - the textures table
and the current-region marker are unchanged - so its parsing is
idempotent in the claimed sense; in the original module such a line
overwrites the existing region, resetting its rotation to the default. -/
theorem c2_duplicate_region_noop (fs : FS) (texDir : StrL) (st : AtlasState) (raw : StrL)
    (hpng : endsWithL (trimL raw) (strL ".png") = true)
    (hdup : dictHas st.textures (splitHead '.' (trimL raw)) = true) :
    (stepImpr fs texDir st raw).textures = st.textures ∧
    (stepImpr fs texDir st raw).current = st.current ∧
    (fs.pathExists (joinPath texDir (trimL raw)) = true →
      (stepImpr fs texDir st raw).msgs =
        st.msgs ++ [Msg.texExists (splitHead '.' (trimL raw))]) := by
  have hne : (trimL raw).isEmpty = false := by
    cases h : trimL raw with
    | nil => rw [h] at hpng; exact absurd hpng (by decide)
    | cons c t => rfl
  simp only [stepImpr]
  rw [if_neg (by rw [hne]; simp), if_pos hpng]
  by_cases hex : fs.pathExists (joinPath texDir (trimL raw)) = true
  · rw [if_pos hex, if_pos hdup]
    exact ⟨rfl, rfl, fun _ => rfl⟩
  · rw [if_neg hex]
    exact ⟨rfl, rfl, fun hc => absurd hc hex⟩

/-- C2 witness: re-declaring region a over a state that already holds a
(with rotation 5) leaves the improved table, marker and rotation intact
and logs the skip message. -/
theorem c2_duplicate_region_noop_witness :
    (stepImpr fsDupAtlas (strL "tex")
       ⟨[(strL "a", ⟨strL "p", 5⟩)], some (strL "a"), []⟩ (strL "a.png")).textures =
      [(strL "a", ⟨strL "p", 5⟩)] ∧
    (stepImpr fsDupAtlas (strL "tex")
       ⟨[(strL "a", ⟨strL "p", 5⟩)], some (strL "a"), []⟩ (strL "a.png")).current =
      some (strL "a") ∧
    (stepImpr fsDupAtlas (strL "tex")
       ⟨[(strL "a", ⟨strL "p", 5⟩)], some (strL "a"), []⟩ (strL "a.png")).msgs =
      [Msg.texExists (strL "a")] := by
  have h := c2_duplicate_region_noop fsDupAtlas (strL "tex")
    ⟨[(strL "a", ⟨strL "p", 5⟩)], some (strL "a"), []⟩ (strL "a.png")
    (by decide) (by decide)
  exact ⟨h.1, h.2.1, h.2.2 rfl⟩

/-- C10 (confirmed): in both modules a rotate line arriving while the
current-region marker is still unset is ignored completely - the state
(textures, marker and log) is returned unchanged and the scan moves on to
the next line. -/
theorem c10_rotate_before_region_ignored (fs : FS) (texDir : StrL)
    (st : AtlasState) (raw : StrL)
    (hcur : st.current = none)
    (hrot : startsWithL (trimL raw) (strL "rotate:") = true)
    (hpng : endsWithL (trimL raw) (strL ".png") = false) :
    stepOrig fs texDir st raw = st ∧ stepImpr fs texDir st raw = st := by
  have hne : (trimL raw).isEmpty = false := by
    cases h : trimL raw with
    | nil => rw [h] at hrot; exact absurd hrot (by decide)
    | cons c t => rfl
  constructor
  · simp only [stepOrig]
    rw [if_neg (by rw [hne]; simp), if_neg (by rw [hpng]; simp),
        if_neg (by rw [hcur]; simp [strTruthy])]
  · simp only [stepImpr]
    rw [if_neg (by rw [hne]; simp), if_neg (by rw [hpng]; simp),
        if_neg (by rw [hcur]; simp [strTruthy])]

/-- C10 witness: the line rotate: 0.5 on the fresh scan state (no region
registered yet) leaves the state of both modules untouched. -/
theorem c10_rotate_before_region_ignored_witness :
    stepOrig fsAbsent (strL "tex") ⟨[], none, []⟩ (strL "rotate: 0.5") =
      ⟨[], none, []⟩ ∧
    stepImpr fsAbsent (strL "tex") ⟨[], none, []⟩ (strL "rotate: 0.5") =
      ⟨[], none, []⟩ :=
  c10_rotate_before_region_ignored fsAbsent (strL "tex") ⟨[], none, []⟩
    (strL "rotate: 0.5") rfl (by decide) (by decide)

/-- C9 (confirmed): when the skeleton JSON path does not exist, both
variants of import_spine return the single missing-JSON error immediately;
the fatal outcome carries no textures, no bones and no baked animation,
so no partial work is observable. -/
theorem c9_missing_json_fatal (fs : FS) (r2d : ℚ → ℚ)
    (jsonPath atlasPath texDir : StrL) (scale : ℚ)
    (h : fs.pathExists jsonPath = false) :
    importSpineOrig fs r2d jsonPath atlasPath texDir scale =
      ImportOutcome.fatalJsonMissing ∧
    importSpineImpr fs r2d jsonPath atlasPath texDir scale =
      ImportOutcome.fatalJsonMissing := by
  constructor
  · simp only [importSpineOrig]
    rw [if_pos (by rw [h]; rfl)]
  · simp only [importSpineImpr]
    rw [if_pos (by rw [h]; simp)]

/-- C9 witness: on a filesystem where nothing exists, both orchestrators
return the missing-JSON fatal outcome for a concrete call. -/
theorem c9_missing_json_fatal_witness :
    importSpineOrig fsAbsent id (strL "s.json") (strL "s.atlas") (strL "tex") 1 =
      ImportOutcome.fatalJsonMissing ∧
    importSpineImpr fsAbsent id (strL "s.json") (strL "s.atlas") (strL "tex") 1 =
      ImportOutcome.fatalJsonMissing :=
  c9_missing_json_fatal fsAbsent id (strL "s.json") (strL "s.atlas") (strL "tex") 1 rfl

/-- C4 (confirmed): keyframe conversion is a pure function of the single
keyframe; for a keyframe with nonnegative time (keyframe times are
timestamps) the translate conversion is (floor(time * 30), x * 0.01,
-y * 0.01) and the rotate conversion pairs the same frame index with the
host radians-to-degrees image of the angle. -/
theorem c4_keyframe_conversion (f g : Keyframe) (r2d : ℚ → ℚ)
    (ht : 0 ≤ f.time) (hfg : f = g) :
    bakeTranslateKey f = (⌊f.time * 30⌋, f.x * (1/100), -f.y * (1/100)) ∧
    bakeRotateKey r2d f = (⌊f.time * 30⌋, r2d f.angle) ∧
    bakeTranslateKey f = bakeTranslateKey g ∧
    bakeRotateKey r2d f = bakeRotateKey r2d g := by
  have h30 : (0 : ℚ) ≤ f.time * 30 := mul_nonneg ht (by norm_num)
  refine ⟨?_, ?_, by rw [hfg], by rw [hfg]⟩
  · unfold bakeTranslateKey
    rw [pyInt_eq_floor _ h30]
  · unfold bakeRotateKey
    rw [pyInt_eq_floor _ h30]

/-- C4 witness: the conversion applied to the keyframe (t=1, x=2, y=3)
and to the rotate keyframe (t=1, angle=7). -/
theorem c4_keyframe_conversion_witness :
    bakeTranslateKey { time := 1, x := 2, y := 3 } =
      (⌊(1 : ℚ) * 30⌋, (2 : ℚ) * (1/100), -(3 : ℚ) * (1/100)) ∧
    ⌊(1 : ℚ) * 30⌋ = 30 ∧
    bakeRotateKey id { time := 1, angle := 7 } = (⌊(1 : ℚ) * 30⌋, id (7 : ℚ)) := by
  have h1 := c4_keyframe_conversion { time := 1, x := 2, y := 3 }
    { time := 1, x := 2, y := 3 } id (by decide) rfl
  have h2 := c4_keyframe_conversion { time := 1, angle := 7 }
    { time := 1, angle := 7 } id (by decide) rfl
  exact ⟨h1.1, by norm_num, h2.2.1⟩

/-- When an animation source was found, the timeline the baker returns
carries exactly the computed frame length. -/
theorem importAnim_duration (sstr : StrL → StrL) (r2d : ℚ → ℚ) (doc : Doc)
    (bm : List (StrL × MaxBone))
    (h : (findAnimations doc.entries).isEmpty = false) :
    ((importAnimationWith sstr r2d doc bm).1).map BakedTimeline.durationFrames =
      some (animLengthFrames (findAnimations doc.entries)) := by
  simp only [importAnimationWith]
  rw [if_neg (by rw [h]; simp)]
  rfl

/-- The fallback loop stops at the first matching key whose value is
non-empty when every earlier matching key held an empty value. -/
theorem fallbackScan_first_nonempty (pre post : List (StrL × ClipMap))
    (k : StrL) (v : ClipMap)
    (hpre : ∀ p ∈ pre, keyMatches p.1 = true → p.2 = [])
    (hk : keyMatches k = true) (hv : v ≠ []) :
    fallbackScan (pre ++ (k, v) :: post) [] = v := by
  induction pre with
  | nil =>
    have hvne : v.isEmpty = false := by
      cases hl : v with
      | nil => exact absurd hl hv
      | cons c t => rfl
    simp only [List.nil_append, fallbackScan]
    rw [if_pos hk, if_neg (by rw [hvne]; simp)]
  | cons p rest ih =>
    have ih2 := ih (fun q hq => hpre q (List.mem_cons_of_mem p hq))
    simp only [List.cons_append, fallbackScan]
    by_cases hm : keyMatches p.1 = true
    · have hp2 : p.2 = [] := hpre p (List.mem_cons_self p rest) hm
      rw [if_pos hm, hp2]
      simpa using ih2
    · rw [if_neg hm]
      exact ih2

/-- The fallback loop yields the empty table when every matching key
holds an empty value. -/
theorem fallbackScan_all_empty (entries : List (StrL × ClipMap))
    (h : ∀ p ∈ entries, keyMatches p.1 = true → p.2 = []) :
    fallbackScan entries [] = [] := by
  induction entries with
  | nil => rfl
  | cons p rest ih =>
    have ih2 := ih (fun q hq => h q (List.mem_cons_of_mem p hq))
    simp only [fallbackScan]
    by_cases hm : keyMatches p.1 = true
    · have hp2 : p.2 = [] := h p (List.mem_cons_self p rest) hm
      rw [if_pos hm, hp2]
      simpa using ih2
    · rw [if_neg hm]
      exact ih2

/-- C8 (confirmed): when the primary animations key is absent or empty,
the baker uses the first top-level key containing the case-insensitive
substring anim or motion whose value is non-empty; when no matching key
holds a non-empty value the baker returns the empty result with the
warning, and the improved orchestrator still finishes with an ok outcome
(import does not fail). -/
theorem c8_anim_fallback :
    (∀ (pre post : List (StrL × ClipMap)) (k : StrL) (v : ClipMap),
       (dictGet (pre ++ (k, v) :: post) (strL "animations")).getD [] = [] →
       (∀ p ∈ pre, keyMatches p.1 = true → p.2 = []) →
       keyMatches k = true → v ≠ [] →
       findAnimations (pre ++ (k, v) :: post) = v) ∧
    (∀ entries : List (StrL × ClipMap),
       (dictGet entries (strL "animations")).getD [] = [] →
       (∀ p ∈ entries, keyMatches p.1 = true → p.2 = []) →
       findAnimations entries = []) ∧
    (∀ (sstr : StrL → StrL) (r2d : ℚ → ℚ) (doc : Doc) (bm : List (StrL × MaxBone)),
       findAnimations doc.entries = [] →
       importAnimationWith sstr r2d doc bm = (none, [Msg.animMissing])) ∧
    (∀ (fs : FS) (r2d : ℚ → ℚ) (jp ap td : StrL) (scale : ℚ) (doc : Doc),
       jp ≠ [] → ap ≠ [] → td ≠ [] →
       fs.pathExists jp = true → fs.pathExists ap = true → fs.pathExists td = true →
       fs.readJson jp = some doc →
       findAnimations doc.entries = [] →
       importSpineImpr fs r2d jp ap td scale =
         ImportOutcome.ok (loadTexturesImpr fs ap td).textures
           (createBonesImpr r2d doc scale).1 none) := by
  have hprim : ∀ entries : List (StrL × ClipMap),
      (dictGet entries (strL "animations")).getD [] = [] →
      findAnimations entries = fallbackScan entries [] := by
    intro entries hp
    unfold findAnimations
    rw [hp]
    rfl
  refine ⟨?_, ?_, ?_, ?_⟩
  · intro pre post k v hp hpre hk hv
    rw [hprim _ hp]
    exact fallbackScan_first_nonempty pre post k v hpre hk hv
  · intro entries hp hall
    rw [hprim _ hp]
    exact fallbackScan_all_empty entries hall
  · intro sstr r2d doc bm hA
    simp only [importAnimationWith]
    rw [if_pos (by rw [hA]; rfl)]
  · intro fs r2d jp ap td scale doc hjp hap htd hejp heap hetd hjson hA
    have hjpe : jp.isEmpty = false := by
      cases hl : jp with
      | nil => exact absurd hl hjp
      | cons c t => rfl
    have hape : ap.isEmpty = false := by
      cases hl : ap with
      | nil => exact absurd hl hap
      | cons c t => rfl
    have htde : td.isEmpty = false := by
      cases hl : td with
      | nil => exact absurd hl htd
      | cons c t => rfl
    simp only [importSpineImpr]
    rw [if_neg (by rw [hjpe, hejp]; simp),
        if_neg (by rw [hape, heap]; simp),
        if_neg (by rw [htde, hetd]; simp), hjson]
    have hbaked : (importAnimationWith safeStrImpr r2d doc
        (createBonesImpr r2d doc scale).1).1 = none := by
      simp only [importAnimationWith]
      rw [if_pos (by rw [hA]; rfl)]
    show ImportOutcome.ok (loadTexturesImpr fs ap td).textures
        (createBonesImpr r2d doc scale).1
        (importAnimationWith safeStrImpr r2d doc (createBonesImpr r2d doc scale).1).1 =
      ImportOutcome.ok (loadTexturesImpr fs ap td).textures
        (createBonesImpr r2d doc scale).1 none
    rw [hbaked]

/-- C8 witness: on concrete inputs the fallback picks MyAnimation past the
empty animations and non-matching skin keys; a document whose matching
keys are all empty yields the empty-with-warning result; and the
improved import of such a document still ends ok. -/
theorem c8_anim_fallback_witness :
    findAnimations entriesFallback = [(strL "clip1", ⟨[]⟩)] ∧
    findAnimations docNoAnim.entries = [] ∧
    importAnimationWith safeStrImpr id docNoAnim [] = (none, [Msg.animMissing]) ∧
    importSpineImpr fsNoAnim id (strL "j") (strL "a") (strL "t") 1 =
      ImportOutcome.ok (loadTexturesImpr fsNoAnim (strL "a") (strL "t")).textures
        (createBonesImpr id docNoAnim 1).1 none := by
  have h := c8_anim_fallback
  refine ⟨?_, ?_, ?_, ?_⟩
  · exact h.1 [(strL "animations", []), (strL "skin", [(strL "ignored", ⟨[]⟩)])]
      [] (strL "MyAnimation") [(strL "clip1", ⟨[]⟩)]
      (by decide) (by decide) (by decide) (by decide)
  · exact h.2.1 docNoAnim.entries (by decide) (by decide)
  · exact h.2.2.1 safeStrImpr id docNoAnim []
      (h.2.1 docNoAnim.entries (by decide) (by decide))
  · exact h.2.2.2 fsNoAnim id (strL "j") (strL "a") (strL "t") 1 docNoAnim
      (by decide) (by decide) (by decide) rfl rfl rfl rfl
      (h.2.1 docNoAnim.entries (by decide) (by decide))

/-- The explicit fraction qFourth is the rational 1/4. -/
theorem qFourth_eq : qFourth = 1/4 := by
  rw [show qFourth = (qFourth.num : ℚ) / (qFourth.den : ℚ) from (Rat.num_div_den qFourth).symm]
  norm_num [qFourth]

/-- C1 (confirmed): for nonnegative keyframe times the baked timeline
length is floor(maxTime * 30) + 10 where maxTime is the maximum keyframe
time over every translate, rotate and scale track of every bone of every
clip, and the 10-frame padding alone when there are no keyframes at all
(an animation source being present). -/
theorem c1_duration_floor (sstr : StrL → StrL) (r2d : ℚ → ℚ) (doc : Doc)
    (bm : List (StrL × MaxBone))
    (hnn : ∀ t ∈ collectTimes (findAnimations doc.entries), 0 ≤ t) :
    (findAnimations doc.entries ≠ [] →
      collectTimes (findAnimations doc.entries) = [] →
      ((importAnimationWith sstr r2d doc bm).1).map BakedTimeline.durationFrames =
        some 10) ∧
    (∀ m, m ∈ collectTimes (findAnimations doc.entries) →
      (∀ t ∈ collectTimes (findAnimations doc.entries), t ≤ m) →
      ((importAnimationWith sstr r2d doc bm).1).map BakedTimeline.durationFrames =
        some (⌊m * 30⌋ + 10)) := by
  constructor
  · intro hAne htimes
    have hAe : (findAnimations doc.entries).isEmpty = false := by
      cases hl : findAnimations doc.entries with
      | nil => exact absurd hl hAne
      | cons c t => rfl
    rw [importAnim_duration sstr r2d doc bm hAe]
    have hlen : animLengthFrames (findAnimations doc.entries) = 10 := by
      rw [animLengthFrames, htimes]
      have : ((List.foldl max 0 ([] : List ℚ)) * 30 : ℚ) = 0 := by
        simp
      rw [this, pyInt_zero]
      decide
    rw [hlen]
  · intro m hm hub
    have h0m : 0 ≤ m := hnn m hm
    have hAe : (findAnimations doc.entries).isEmpty = false := by
      cases hl : findAnimations doc.entries with
      | nil =>
        rw [hl] at hm
        simp [collectTimes] at hm
      | cons c t => rfl
    rw [importAnim_duration sstr r2d doc bm hAe]
    have hfold : (collectTimes (findAnimations doc.entries)).foldl max 0 = m :=
      foldlMax_eq_max _ m hm hub h0m
    have hlen : animLengthFrames (findAnimations doc.entries) = ⌊m * 30⌋ + 10 := by
      rw [animLengthFrames, hfold,
          pyInt_eq_floor _ (mul_nonneg h0m (by norm_num))]
    rw [hlen]

/-- C1 witness: the translate track on root with keyframes at t = 0, 1, 2
yields durationFrames = 70 (scenario B of the spec). -/
theorem c1_duration_floor_witness :
    ((importAnimationWith safeStrImpr id docWalk []).1).map
      BakedTimeline.durationFrames = some 70 := by
  have h := (c1_duration_floor safeStrImpr id docWalk [] (by decide)).2
    2 (by decide) (by decide)
  rw [h]
  norm_num

/-- C5 counterexample: on the document with a single translate keyframe
at t = 1/4 the baked duration is int(7.5) + 10 = 17, one frame short of
the claimed ceil(7.5) + 10 = 18: the code floors (truncates), it does not
take the ceiling. -/
theorem c5_counterexample :
    ((importAnimationWith safeStrImpr id docQuarter []).1).map
      BakedTimeline.durationFrames = some 17 ∧
    ⌈qFourth * 30⌉ + 10 = 18 := by
  constructor
  · rw [importAnim_duration safeStrImpr id docQuarter [] (by decide)]
    have hc : collectTimes (findAnimations docQuarter.entries) = [qFourth] := by decide
    have hfold : List.foldl max 0 [qFourth] = qFourth := by
      show max 0 qFourth = qFourth
      exact max_eq_right (by decide)
    have hlen : animLengthFrames (findAnimations docQuarter.entries) = 17 := by
      rw [animLengthFrames, hc, hfold,
          pyInt_eq_floor _ (mul_nonneg (by decide : (0:ℚ) ≤ qFourth) (by norm_num)),
          qFourth_eq]
      norm_num
    rw [hlen]
  · rw [qFourth_eq]
    have h8 : ⌈(1/4 * 30 : ℚ)⌉ = 8 := by
      rw [Int.ceil_eq_iff]
      constructor <;> norm_num
    rw [h8]
    decide

/-- C5 (amended): the timeline length is the floor (Python int
truncation) of the running maximum keyframe time (seeded with 0) times
30, plus the 10-frame padding - not the ceiling; equivalently, whenever a
timeline is produced its duration is that floor expression. -/
theorem c5_duration_truncation :
    (∀ anims : ClipMap,
       animLengthFrames anims = ⌊(collectTimes anims).foldl max 0 * 30⌋ + 10) ∧
    (∀ (sstr : StrL → StrL) (r2d : ℚ → ℚ) (doc : Doc) (bm : List (StrL × MaxBone)),
       ((importAnimationWith sstr r2d doc bm).1).map BakedTimeline.durationFrames =
         if (findAnimations doc.entries).isEmpty = true then none
         else some (⌊(collectTimes (findAnimations doc.entries)).foldl max 0 * 30⌋ + 10)) := by
  have hmain : ∀ anims : ClipMap,
      animLengthFrames anims = ⌊(collectTimes anims).foldl max 0 * 30⌋ + 10 := by
    intro anims
    rw [animLengthFrames,
        pyInt_eq_floor _ (mul_nonneg (foldlMax_nonneg _) (by norm_num))]
  refine ⟨hmain, ?_⟩
  intro sstr r2d doc bm
  cases hA : (findAnimations doc.entries).isEmpty with
  | true =>
    rw [if_pos rfl]
    simp only [importAnimationWith]
    rw [if_pos hA]
    rfl
  | false =>
    rw [if_neg (by simp)]
    rw [importAnim_duration sstr r2d doc bm hA, hmain]
